import Mathlib

/-!
Verification of the line-delimited-JSON (LDJ) networking programs:
the `LDJClient` stream decoder (networking/lib/ldj-client.js as given in
the chapter source), the client-side message handler
(networking/net-watcher-ldj-client.js), the chunked test service
(networking/net-watcher-json-test-service.js) and the watcher service.
Byte strings are modelled as `List Char`; the decoder's mutable `buffer`
closure variable is threaded explicitly; a thrown JS exception is an
`Except.error` / `Option.some` in the result.
-/

namespace LDJ

/-- A parsed JSON value, as produced by `JSON.parse`.  Numbers keep their
source lexeme (the claims only involve integer literals, for which the
lexeme determines the JS number); object members keep source order, as JS
objects preserve string-key insertion order. -/
inductive Json where
  | null
  | bool (b : Bool)
  | num (lexeme : String)
  | str (s : String)
  | arr (items : List Json)
  | obj (members : List (String × Json))

/-- JSON insignificant whitespace: space, tab, line feed, carriage return. -/
def jsonWs (c : Char) : Bool :=
  let n := c.toNat
  n = 32 || n = 9 || n = 10 || n = 13

/-- Drop leading JSON whitespace. -/
def skipWs : List Char → List Char
  | [] => []
  | c :: cs => if jsonWs c then skipWs cs else c :: cs

def isDig (c : Char) : Bool := 48 ≤ c.toNat && c.toNat ≤ 57

/-- Expect the given keyword characters at the front of the input. -/
def stripTok : List Char → List Char → Option (List Char)
  | [], cs => some cs
  | _ :: _, [] => none
  | k :: ks, c :: cs => if c = k then stripTok ks cs else none

/-- Longest prefix of decimal digits, with the rest of the input. -/
def digitSpan : List Char → List Char × List Char
  | [] => ([], [])
  | c :: cs =>
    if isDig c then
      let s := digitSpan cs
      (c :: s.1, s.2)
    else ([], c :: cs)

/-- Value of one hexadecimal digit, if it is one. -/
def hexDigit (c : Char) : Option Nat :=
  let n := c.toNat
  if 48 ≤ n && n ≤ 57 then some (n - 48)
  else if 97 ≤ n && n ≤ 102 then some (n - 87)
  else if 65 ≤ n && n ≤ 70 then some (n - 55)
  else none

/-- Single-character JSON string escapes. -/
def escTable (c : Char) : Option Char :=
  if c = '"' then some '"'
  else if c = '\\' then some '\\'
  else if c = '/' then some '/'
  else if c = 'b' then some (Char.ofNat 8)
  else if c = 'f' then some (Char.ofNat 12)
  else if c = 'n' then some '\n'
  else if c = 'r' then some '\r'
  else if c = 't' then some '\t'
  else none

/-- Scan a JSON string body after the opening quote.  The accumulator holds
the decoded characters in reverse.  Raw control characters are rejected,
as `JSON.parse` rejects them. -/
def strScan (acc : List Char) : List Char → Except String (String × List Char)
  | [] => .error "Unterminated string in JSON"
  | c :: cs =>
    if c = '"' then .ok (⟨acc.reverse⟩, cs)
    else if c = '\\' then
      match cs with
      | [] => .error "Unterminated string in JSON"
      | 'u' :: h1 :: h2 :: h3 :: h4 :: cs2 =>
        match hexDigit h1, hexDigit h2, hexDigit h3, hexDigit h4 with
        | some a, some b, some c3, some d =>
          strScan (Char.ofNat (((a * 16 + b) * 16 + c3) * 16 + d) :: acc) cs2
        | _, _, _, _ => .error "Bad Unicode escape in JSON"
      | e :: cs2 =>
        match escTable e with
        | some d => strScan (d :: acc) cs2
        | none => .error "Bad escaped character in JSON"
    else if c.toNat < 32 then .error "Bad control character in JSON string"
    else strScan (c :: acc) cs

/-- Lex a JSON number starting at the current position, returning its
lexeme.  Enforces the JSON grammar: optional minus, integer part without
leading zeros, optional fraction with at least one digit, optional
exponent with at least one digit. -/
def numLex (cs : List Char) : Except String (String × List Char) :=
  let (sgn, cs1) : List Char × List Char :=
    match cs with
    | '-' :: r => (['-'], r)
    | _ => ([], cs)
  match cs1 with
  | '0' :: r =>
    numTail (sgn ++ ['0']) r
  | c :: r =>
    if isDig c then
      let s := digitSpan r
      numTail (sgn ++ c :: s.1) s.2
    else .error "No number after minus sign in JSON"
  | [] => .error "No number after minus sign in JSON"
where
  /-- Fraction and exponent parts, appended to the lexeme so far. -/
  numTail (lx : List Char) (cs : List Char) : Except String (String × List Char) :=
    let (lx1, cs1) : List Char × List Char :=
      match cs with
      | '.' :: r => (lx ++ ['.'], r)
      | _ => (lx, cs)
    if lx1.length = lx.length then
      numExp lx1 cs1
    else
      match digitSpan cs1 with
      | ([], _) => .error "Unterminated fractional number in JSON"
      | (ds, r) => numExp (lx1 ++ ds) r
  /-- Exponent part, appended to the lexeme so far. -/
  numExp (lx : List Char) (cs : List Char) : Except String (String × List Char) :=
    match cs with
    | 'e' :: r => numExpDigits (lx ++ ['e']) r
    | 'E' :: r => numExpDigits (lx ++ ['E']) r
    | _ => .ok (⟨lx⟩, cs)
  /-- Sign and digits of an exponent. -/
  numExpDigits (lx : List Char) (cs : List Char) : Except String (String × List Char) :=
    let (lx1, cs1) : List Char × List Char :=
      match cs with
      | '+' :: r => (lx ++ ['+'], r)
      | '-' :: r => (lx ++ ['-'], r)
      | _ => (lx, cs)
    match digitSpan cs1 with
    | ([], _) => .error "Exponent part is missing a number in JSON"
    | (ds, r) => .ok (⟨lx1 ++ ds⟩, r)

mutual

/-- Parse one JSON value, structurally on `fuel`.  Every recursive call
first consumes at least one input character, so `fuel` larger than the
input length never runs out. -/
def jsonValue : Nat → List Char → Except String (Json × List Char)
  | 0, _ => .error "JSON parser ran out of fuel"
  | fuel + 1, cs =>
    match skipWs cs with
    | [] => .error "Unexpected end of JSON input"
    | c :: r =>
      if c = 'n' then
        match stripTok ['u', 'l', 'l'] r with
        | some r1 => .ok (.null, r1)
        | none => .error "Unexpected token in JSON"
      else if c = 't' then
        match stripTok ['r', 'u', 'e'] r with
        | some r1 => .ok (.bool true, r1)
        | none => .error "Unexpected token in JSON"
      else if c = 'f' then
        match stripTok ['a', 'l', 's', 'e'] r with
        | some r1 => .ok (.bool false, r1)
        | none => .error "Unexpected token in JSON"
      else if c = '"' then
        match strScan [] r with
        | .ok (s, r1) => .ok (.str s, r1)
        | .error e => .error e
      else if c = '[' then
        match skipWs r with
        | ']' :: r1 => .ok (.arr [], r1)
        | r1 =>
          match jsonElems fuel r1 with
          | .ok (vs, r2) => .ok (.arr vs, r2)
          | .error e => .error e
      else if c = '{' then
        match skipWs r with
        | '}' :: r1 => .ok (.obj [], r1)
        | r1 =>
          match jsonMembers fuel r1 with
          | .ok (ms, r2) => .ok (.obj ms, r2)
          | .error e => .error e
      else if c = '-' || isDig c then
        match numLex (c :: r) with
        | .ok (lx, r1) => .ok (.num lx, r1)
        | .error e => .error e
      else .error "Unexpected token in JSON"

/-- One or more comma-separated array elements, up to the closing bracket. -/
def jsonElems : Nat → List Char → Except String (List Json × List Char)
  | 0, _ => .error "JSON parser ran out of fuel"
  | fuel + 1, cs =>
    match jsonValue fuel cs with
    | .ok (x, t) =>
      match skipWs t with
      | ']' :: t1 => .ok ([x], t1)
      | ',' :: t1 =>
        match jsonElems fuel t1 with
        | .ok (xs, t2) => .ok (x :: xs, t2)
        | .error e => .error e
      | _ => .error "Expected comma or closing bracket in JSON array"
    | .error e => .error e

/-- One or more comma-separated object members, up to the closing brace. -/
def jsonMembers : Nat → List Char → Except String (List (String × Json) × List Char)
  | 0, _ => .error "JSON parser ran out of fuel"
  | fuel + 1, cs =>
    match skipWs cs with
    | '"' :: u =>
      match strScan [] u with
      | .ok (k, u1) =>
        match skipWs u1 with
        | ':' :: u2 =>
          match jsonValue fuel u2 with
          | .ok (v, u3) =>
            match skipWs u3 with
            | '}' :: u4 => .ok ([(k, v)], u4)
            | ',' :: u4 =>
              match jsonMembers fuel u4 with
              | .ok (tl, u5) => .ok ((k, v) :: tl, u5)
              | .error e => .error e
            | _ => .error "Expected comma or closing brace in JSON object"
          | .error e => .error e
        | _ => .error "Expected colon after key in JSON object"
      | .error e => .error e
    | _ => .error "Expected string key in JSON object"

end

/-- `JSON.parse` on a complete text: one value, then only whitespace. -/
def JSONParse (cs : List Char) : Except String Json :=
  match jsonValue (cs.length + 1) cs with
  | .error e => .error e
  | .ok (v, r) =>
    match skipWs r with
    | [] => .ok v
    | _ => .error "Unexpected non-whitespace character after JSON"

/-- The characters of a string literal. -/
def chars (s : String) : List Char := s.data

/-! ### The LDJClient stream decoder

The constructor of `LDJClient` (networking/lib/ldj-client.js) registers one
handler on the stream's data events:

  buffer += data;
  let boundary = buffer.indexOf('\n');
  while (boundary !== -1) \x7b
    const input = buffer.substring(0, boundary);
    buffer = buffer.substring(boundary + 1);
    this.emit('message', JSON.parse(input));
    boundary = buffer.indexOf('\n');
  \x7d

There is no try/catch: when `JSON.parse` throws, the loop (and the whole
handler) aborts, after the buffer was already advanced past the offending
frame and after the message events for the earlier frames already fired. -/

/-- One run of the data handler: the messages emitted (in order), the final
value of the `buffer` closure variable, and the exception that escaped the
handler, if any. -/
structure IngestResult where
  events : List Json
  buffer : List Char
  thrown : Option String

/-- `buffer.indexOf('\n')`, with `none` for `-1`. -/
def idxOfNl : List Char → Option Nat
  | [] => none
  | c :: cs => if c = '\n' then some 0 else (idxOfNl cs).map Nat.succ

/-- The while loop of the data handler, structurally on `fuel`.  Each
iteration removes `boundary + 1 ≥ 1` characters from the buffer, so any
`fuel` exceeding the buffer length behaves as the unbounded loop. -/
def ingestLoop : Nat → List Char → IngestResult
  | 0, buf => ⟨[], buf, none⟩
  | fuel + 1, buf =>
    match idxOfNl buf with
    | none => ⟨[], buf, none⟩
    | some boundary =>
      let input := buf.take boundary
      let buf1 := buf.drop (boundary + 1)
      match JSONParse input with
      | .ok msg =>
        let out := ingestLoop fuel buf1
        ⟨msg :: out.events, out.buffer, out.thrown⟩
      | .error e => ⟨[], buf1, some e⟩

/-- One data event: append the chunk to the buffer, then drain frames. -/
def ingest (buffer data : List Char) : IngestResult :=
  ingestLoop ((buffer ++ data).length + 1) (buffer ++ data)

/-- Feed a sequence of chunks through the data handler, starting from the
empty buffer state the constructor sets up.  An exception thrown by one
data event crashes the uncaught-exception-free process, so no later chunk
is processed after a throw. -/
def runChunks (buffer : List Char) : List (List Char) → IngestResult
  | [] => ⟨[], buffer, none⟩
  | chunk :: more =>
    let r := ingest buffer chunk
    match r.thrown with
    | some e => ⟨r.events, r.buffer, some e⟩
    | none =>
      let s := runChunks r.buffer more
      ⟨r.events ++ s.events, s.buffer, s.thrown⟩

/-! ### Specification-side view of the byte stream

`splitNl` names the intrinsic decomposition of a byte sequence at its
line-terminator bytes: the complete frame payloads, then the trailing
partial frame.  It is the yardstick the decoder is measured against. -/

/-- Decompose a byte sequence into its terminated lines and the remainder
after the last terminator. -/
def splitNl : List Char → List (List Char) × List Char
  | [] => ([], [])
  | c :: cs =>
    if c = '\n' then
      ([] :: (splitNl cs).1, (splitNl cs).2)
    else
      match splitNl cs with
      | ([], rem) => ([], c :: rem)
      | (l :: ls, rem) => ((c :: l) :: ls, rem)

/-- The messages obtained by decoding each payload that decodes. -/
def parsedLines (ls : List (List Char)) : List Json :=
  ls.filterMap (fun l => (JSONParse l).toOption)

/-- Whether a decode attempt succeeded. -/
def isOkB : Except String Json → Bool
  | .ok _ => true
  | .error _ => false

/-- A valid frame stream: every terminated frame payload decodes. -/
def linesOk (s : List Char) : Prop :=
  ∀ l ∈ (splitNl s).1, isOkB (JSONParse l) = true

instance (s : List Char) : Decidable (linesOk s) := by
  unfold linesOk; infer_instance

/-! ### The client-side message handler

networking/net-watcher-ldj-client.js registers:

  ldjClient.on('message', message => \x7b
    if (message.type === 'watching') \x7b ... \x7d
    else if (message.type === 'changed') \x7b ... \x7d
    else \x7b throw Error(`Unrecognized message type: $\x7bmessage.type\x7d`); \x7d
  \x7d);
-/

/-- JS property read on a parsed JSON value: `undefined` (here `none`)
unless the value is an object with that key.  With duplicate keys,
`JSON.parse` keeps the last occurrence, so the last binding wins. -/
def jget : Json → String → Option Json
  | .obj ms, key => lookLast ms key
  | _, _ => none
where
  lookLast : List (String × Json) → String → Option Json
    | [], _ => none
    | (k, v) :: rest, key =>
      match lookLast rest key with
      | some w => some w
      | none => if k = key then some v else none

/-- JS strict equality of a property read against a string literal:
true exactly when the property is that JS string. -/
def isType (v : Option Json) (s : String) : Bool :=
  match v with
  | some (.str t) => t == s
  | _ => false

/-- JS template-literal coercion of a property read to text, used only in
the thrown error message.  Scalar cases are exact; element-wise
stringification inside arrays is approximated at one nesting level. -/
def jsAtomStr : Json → String
  | .null => "null"
  | .bool true => "true"
  | .bool false => "false"
  | .num lx => lx
  | .str s => s
  | .arr _ => ""
  | .obj _ => "[object Object]"

def jsToStr : Option Json → String
  | none => "undefined"
  | some (.arr items) => String.intercalate "," (items.map jsAtomStr)
  | some v => jsAtomStr v

/-- What a dispatched message makes the client do. -/
inductive ClientAction where
  | logWatching (file : Option Json)
  | logChanged (timestamp : Option Json)

/-- The message-event handler: dispatch on `message.type`, throwing on any
unrecognized discriminant. -/
def handleMessage (message : Json) : Except String ClientAction :=
  if isType (jget message "type") "watching" then
    .ok (.logWatching (jget message "file"))
  else if isType (jget message "type") "changed" then
    .ok (.logChanged (jget message "timestamp"))
  else
    .error ("Unrecognized message type: " ++ jsToStr (jget message "type"))

/-! ### Session resource lifecycles

The watcher service's connection handler opens `fs.watch(filename, ...)`
and registers `connection.on('close', () => watcher.close())`; the chunked
test service's handler arms `setTimeout` for the delayed second chunk and
registers `connection.on('end', () => clearTimeout(timer))`, while the
timer callback itself ends the connection after sending. -/

/-- State of one watcher-service session. -/
structure WatchSession where
  connected : Bool
  watcherOpen : Bool
  deriving Repr

/-- Connection handler: the watching frame is written and the watcher opened. -/
def watchSessionStart : WatchSession := ⟨true, true⟩

/-- Events observable by a watcher-service session. -/
inductive WatchEvent where
  | fileChanged
  | connClose
  deriving Repr

/-- Handler dispatch: the watcher callback writes a frame and leaves the
session state alone; the close handler runs `watcher.close()`. -/
def watchStep (s : WatchSession) : WatchEvent → WatchSession
  | .fileChanged => s
  | .connClose => ⟨false, false⟩

def watchRun (es : List WatchEvent) : WatchSession :=
  es.foldl watchStep watchSessionStart

/-- State of one chunked-test-service session. -/
structure TestSession where
  connected : Bool
  timerPending : Bool
  deriving Repr

/-- Connection handler: first chunk written, delayed-delivery timer armed. -/
def testSessionStart : TestSession := ⟨true, true⟩

/-- Events observable by a test-service session. -/
inductive TestEvent where
  | timerFires
  | peerEnds
  deriving Repr

/-- Handler dispatch: the timer callback writes the second chunk and calls
`connection.end()` (a fired timer is no longer pending; a cleared timer
never fires); the end handler runs `clearTimeout(timer)`. -/
def testStep (s : TestSession) : TestEvent → TestSession
  | .timerFires => if s.timerPending then ⟨false, false⟩ else s
  | .peerEnds => ⟨false, false⟩

def testRun (es : List TestEvent) : TestSession :=
  es.foldl testStep testSessionStart

/-! ### Scanning lemmas: `indexOf` against the line decomposition -/

theorem idxOfNl_lt_length {s : List Char} {b : Nat} (h : idxOfNl s = some b) :
    b < s.length := by
  induction s generalizing b with
  | nil => simp [idxOfNl] at h
  | cons c cs ih =>
    rw [idxOfNl] at h
    split at h
    · cases h
      simp
    · obtain ⟨a, ha, hab⟩ := Option.map_eq_some'.mp h
      have := ih ha
      simp only [List.length_cons]
      omega

theorem idxOfNl_none_cons {c : Char} {cs : List Char} (h : idxOfNl (c :: cs) = none) :
    ¬ c = '\n' ∧ idxOfNl cs = none := by
  rw [idxOfNl] at h
  split at h
  · exact absurd h (by simp)
  · exact ⟨by assumption, Option.map_eq_none'.mp h⟩

theorem splitNl_of_idx_none {s : List Char} (h : idxOfNl s = none) :
    splitNl s = ([], s) := by
  induction s with
  | nil => rfl
  | cons c cs ih =>
    obtain ⟨hc, hcs⟩ := idxOfNl_none_cons h
    rw [splitNl, if_neg hc, ih hcs]

theorem splitNl_of_idx_some {s : List Char} {b : Nat} (h : idxOfNl s = some b) :
    splitNl s =
      ((s.take b) :: (splitNl (s.drop (b + 1))).1, (splitNl (s.drop (b + 1))).2) := by
  induction s generalizing b with
  | nil => simp [idxOfNl] at h
  | cons c cs ih =>
    rw [idxOfNl] at h
    split at h
    · cases h
      rename_i hc
      rw [splitNl, if_pos hc]
      simp
    · obtain ⟨a, ha, hab⟩ := Option.map_eq_some'.mp h
      subst hab
      rename_i hc
      rw [splitNl, if_neg hc, ih ha]
      simp

theorem idxOfNl_splitNl_rem (s : List Char) : idxOfNl (splitNl s).2 = none := by
  induction s with
  | nil => rfl
  | cons c cs ih =>
    by_cases hc : c = '\n'
    · rw [splitNl, if_pos hc]
      exact ih
    · rw [splitNl, if_neg hc]
      rcases hs : splitNl cs with ⟨ls, rem⟩
      rw [hs] at ih
      cases ls with
      | nil =>
        simp only []
        rw [idxOfNl, if_neg hc]
        rw [ih]
        rfl
      | cons l ls' => exact ih

theorem splitNl_append (a b : List Char) :
    splitNl (a ++ b) =
      ((splitNl a).1 ++ (splitNl ((splitNl a).2 ++ b)).1,
       (splitNl ((splitNl a).2 ++ b)).2) := by
  induction a with
  | nil => simp [splitNl]
  | cons c a' ih =>
    by_cases hc : c = '\n'
    · simp only [List.cons_append]
      rw [splitNl, if_pos hc, splitNl, if_pos hc, ih]
      simp
    · simp only [List.cons_append]
      rw [splitNl, if_neg hc, splitNl, if_neg hc, ih]
      rcases hsa : splitNl a' with ⟨la, ra⟩
      cases la with
      | nil =>
        simp only [List.nil_append, List.cons_append]
        rw [splitNl, if_neg hc]
      | cons l0 ls0 =>
        simp only [List.cons_append]

theorem idxOfNl_append_none {a b : List Char} (ha : idxOfNl a = none)
    (hb : idxOfNl b = none) : idxOfNl (a ++ b) = none := by
  induction a with
  | nil => exact hb
  | cons c a' ih =>
    obtain ⟨hc, ha'⟩ := idxOfNl_none_cons ha
    rw [List.cons_append, idxOfNl, if_neg hc, ih ha']
    rfl

theorem splitNl_frame {p : List Char} (h : idxOfNl p = none) (r : List Char) :
    splitNl (p ++ '\n' :: r) = (p :: (splitNl r).1, (splitNl r).2) := by
  induction p with
  | nil =>
    rw [List.nil_append, splitNl, if_pos rfl]
  | cons c p' ih =>
    obtain ⟨hc, hp'⟩ := idxOfNl_none_cons h
    rw [List.cons_append, splitNl, if_neg hc, ih hp']

theorem idxOfNl_frame {p : List Char} (h : idxOfNl p = none) (r : List Char) :
    idxOfNl (p ++ '\n' :: r) = some p.length := by
  induction p with
  | nil =>
    rw [List.nil_append, idxOfNl, if_pos rfl]
    rfl
  | cons c p' ih =>
    obtain ⟨hc, hp'⟩ := idxOfNl_none_cons h
    rw [List.cons_append, idxOfNl, if_neg hc, ih hp']
    rfl

/-! ### Characterization of the decode loop on valid input -/

theorem ingestLoop_ok : ∀ (fuel : Nat) (buf : List Char), buf.length < fuel →
    (∀ l ∈ (splitNl buf).1, isOkB (JSONParse l) = true) →
    ingestLoop fuel buf = ⟨parsedLines (splitNl buf).1, (splitNl buf).2, none⟩ := by
  intro fuel
  induction fuel with
  | zero =>
    intro buf hlen _
    omega
  | succ fuel ih =>
    intro buf hlen hok
    rw [ingestLoop]
    rcases hidx : idxOfNl buf with _ | b
    · rw [splitNl_of_idx_none hidx]
      rfl
    · have hb := idxOfNl_lt_length hidx
      have hsp := splitNl_of_idx_some hidx
      have hokhead : isOkB (JSONParse (buf.take b)) = true := by
        refine hok _ ?_
        rw [hsp]
        exact List.mem_cons_self _ _
      rcases hp : JSONParse (buf.take b) with e | v
      · rw [hp] at hokhead
        simp [isOkB] at hokhead
      · have hlen' : (buf.drop (b + 1)).length < fuel := by
          rw [List.length_drop]
          omega
        have hok' : ∀ l ∈ (splitNl (buf.drop (b + 1))).1, isOkB (JSONParse l) = true := by
          intro l hl
          refine hok _ ?_
          rw [hsp]
          exact List.mem_cons_of_mem _ hl
        simp only [hp, ih _ hlen' hok', hsp, parsedLines, List.filterMap_cons, hp,
          Except.toOption]

theorem ingest_ok {buffer data : List Char} (h : linesOk (buffer ++ data)) :
    ingest buffer data =
      ⟨parsedLines (splitNl (buffer ++ data)).1, (splitNl (buffer ++ data)).2, none⟩ :=
  ingestLoop_ok _ _ (Nat.lt_succ_self _) h

theorem ingestLoop_no_nl : ∀ (fuel : Nat) (buf : List Char), buf.length < fuel →
    (ingestLoop fuel buf).thrown = none →
    idxOfNl (ingestLoop fuel buf).buffer = none := by
  intro fuel
  induction fuel with
  | zero =>
    intro buf hlen _
    omega
  | succ fuel ih =>
    intro buf hlen hnone
    rw [ingestLoop] at hnone ⊢
    rcases hidx : idxOfNl buf with _ | b
    all_goals simp only [hidx] at hnone ⊢
    have hb := idxOfNl_lt_length hidx
    rcases hp : JSONParse (buf.take b) with e | v
    all_goals simp only [hp] at hnone ⊢
    · exact Option.noConfusion hnone
    · have hlen' : (buf.drop (b + 1)).length < fuel := by
        rw [List.length_drop]
        omega
      exact ih _ hlen' hnone

theorem take_frame {p : List Char} (r : List Char) :
    (p ++ '\n' :: r).take p.length = p := by
  induction p with
  | nil => rfl
  | cons c p' ih => rw [List.cons_append, List.length_cons, List.take_succ_cons, ih]

theorem drop_frame {p : List Char} (r : List Char) :
    (p ++ '\n' :: r).drop (p.length + 1) = r := by
  induction p with
  | nil => rfl
  | cons c p' ih => rw [List.cons_append, List.length_cons, List.drop_succ_cons, ih]

theorem runChunks_ok : ∀ (chunks : List (List Char)) (buf : List Char),
    idxOfNl buf = none → linesOk (buf ++ chunks.flatten) →
    runChunks buf chunks =
      ⟨parsedLines (splitNl (buf ++ chunks.flatten)).1,
       (splitNl (buf ++ chunks.flatten)).2, none⟩ := by
  intro chunks
  induction chunks with
  | nil =>
    intro buf hb _
    rw [runChunks]
    simp only [List.flatten_nil, List.append_nil, splitNl_of_idx_none hb]
    rfl
  | cons chunk more ih =>
    intro buf hb hok
    simp only [List.flatten_cons, ← List.append_assoc] at hok ⊢
    have hdec := splitNl_append (buf ++ chunk) more.flatten
    simp only [linesOk, hdec, List.mem_append] at hok
    have hok1 : linesOk (buf ++ chunk) := by
      intro l hl
      exact hok l (Or.inl hl)
    have hok2 : linesOk ((splitNl (buf ++ chunk)).2 ++ more.flatten) := by
      intro l hl
      exact hok l (Or.inr hl)
    rw [runChunks]
    simp only [ingest_ok hok1]
    rw [ih _ (idxOfNl_splitNl_rem _) hok2]
    simp only [hdec, parsedLines, List.filterMap_append]

/-! ### Session invariants -/

theorem watchStep_inv (s : WatchSession) (e : WatchEvent)
    (h : s.connected = false → s.watcherOpen = false) :
    (watchStep s e).connected = false → (watchStep s e).watcherOpen = false := by
  cases e with
  | fileChanged => exact h
  | connClose => intro _; rfl

theorem watchFold_inv : ∀ (es : List WatchEvent) (s : WatchSession),
    (s.connected = false → s.watcherOpen = false) →
    ((es.foldl watchStep s).connected = false →
     (es.foldl watchStep s).watcherOpen = false) := by
  intro es
  induction es with
  | nil => intro s h; exact h
  | cons e es ih => intro s h; exact ih _ (watchStep_inv s e h)

theorem testStep_inv (s : TestSession) (e : TestEvent)
    (h : s.connected = false → s.timerPending = false) :
    (testStep s e).connected = false → (testStep s e).timerPending = false := by
  cases e with
  | timerFires =>
    rw [testStep]
    split
    · intro _; rfl
    · exact h
  | peerEnds => intro _; rfl

theorem testFold_inv : ∀ (es : List TestEvent) (s : TestSession),
    (s.connected = false → s.timerPending = false) →
    ((es.foldl testStep s).connected = false →
     (es.foldl testStep s).timerPending = false) := by
  intro es
  induction es with
  | nil => intro s h; exact h
  | cons e es ih => intro s h; exact ih _ (testStep_inv s e h)

/-! ### The claims -/

/-- Claim C1 (fragmentation invariance): for every valid frame stream and
every way of splitting it into chunks, feeding the chunks through the data
handler in order produces the same ordered message sequence (and the same
final decoder state) as feeding the whole stream as one chunk. -/
theorem fragmentation_invariance (stream : List Char) (chunks : List (List Char))
    (hjoin : chunks.flatten = stream) (hvalid : linesOk stream) :
    runChunks [] chunks = runChunks [] [stream] := by
  subst hjoin
  have h1 := runChunks_ok chunks [] rfl (by simpa using hvalid)
  have h2 := runChunks_ok [chunks.flatten] [] rfl
    (by simp only [List.nil_append, List.flatten_cons, List.flatten_nil, List.append_nil]
        exact hvalid)
  simp only [List.flatten_cons, List.flatten_nil, List.append_nil, List.nil_append] at h1 h2
  rw [h1, h2]

/-- Witness for C1: a two-frame stream cut at points that split both frames
is decoded exactly as the whole stream delivered at once. -/
theorem fragmentation_invariance_witness :
    [chars "\x7b\"a\":1", chars "\x7d\n\x7b\"b\"", chars ":2\x7d\n"].flatten
        = chars "\x7b\"a\":1\x7d\n\x7b\"b\":2\x7d\n"
    ∧ linesOk (chars "\x7b\"a\":1\x7d\n\x7b\"b\":2\x7d\n")
    ∧ runChunks [] [chars "\x7b\"a\":1", chars "\x7d\n\x7b\"b\"", chars ":2\x7d\n"]
        = runChunks [] [chars "\x7b\"a\":1\x7d\n\x7b\"b\":2\x7d\n"] :=
  ⟨rfl, by decide, fragmentation_invariance _ _ rfl (by decide)⟩

/-- Claim C5 (Decode Buffer invariant): whenever a data-handler run returns
normally, the retained buffer contains no line-terminator byte, hence at
most one partial, not-yet-terminated frame and no complete frame. -/
theorem buffer_no_terminator (buffer data : List Char)
    (h : (ingest buffer data).thrown = none) :
    idxOfNl (ingest buffer data).buffer = none :=
  ingestLoop_no_nl _ _ (Nat.lt_succ_self _) h

/-- Witness for C5: a complete frame plus a partial leaves a terminator-free
buffer. -/
theorem buffer_no_terminator_witness :
    (ingest [] (chars "null\n\x7b\"pa")).thrown = none
    ∧ idxOfNl (ingest [] (chars "null\n\x7b\"pa")).buffer = none :=
  ⟨rfl, buffer_no_terminator _ _ rfl⟩

/-- Claim C6 (batch emission): an ingest call whose buffer-plus-chunk holds
exactly two complete back-to-back frames emits exactly the two decoded
messages, in the order of the frames' terminators, in that one call. -/
theorem batch_emission (buffer chunk p1 p2 : List Char) (v1 v2 : Json)
    (hshape : buffer ++ chunk = p1 ++ '\n' :: (p2 ++ ['\n']))
    (h1 : idxOfNl p1 = none) (h2 : idxOfNl p2 = none)
    (hv1 : JSONParse p1 = .ok v1) (hv2 : JSONParse p2 = .ok v2) :
    ingest buffer chunk = ⟨[v1, v2], [], none⟩ := by
  have hsp : splitNl (buffer ++ chunk) = ([p1, p2], []) := by
    rw [hshape, splitNl_frame h1, splitNl_frame h2]
    rfl
  have hok : linesOk (buffer ++ chunk) := by
    intro l hl
    rw [hsp] at hl
    simp only [List.mem_cons, List.not_mem_nil, or_false] at hl
    rcases hl with rfl | rfl
    · rw [hv1]; rfl
    · rw [hv2]; rfl
  rw [ingest_ok hok, hsp]
  simp [parsedLines, List.filterMap_cons, hv1, hv2, Except.toOption]

/-- Witness for C6: two back-to-back frames in one chunk yield both
messages from that call. -/
theorem batch_emission_witness :
    chars "\x7b\"a\":1\x7d\n\x7b\"b\":2\x7d\n"
        = chars "\x7b\"a\":1\x7d" ++ '\n' :: (chars "\x7b\"b\":2\x7d" ++ ['\n'])
    ∧ ingest [] (chars "\x7b\"a\":1\x7d\n\x7b\"b\":2\x7d\n")
        = ⟨[.obj [("a", .num "1")], .obj [("b", .num "2")]], [], none⟩ :=
  ⟨rfl, batch_emission [] (chars "\x7b\"a\":1\x7d\n\x7b\"b\":2\x7d\n")
    (chars "\x7b\"a\":1\x7d") (chars "\x7b\"b\":2\x7d")
    (.obj [("a", .num "1")]) (.obj [("b", .num "2")]) rfl rfl rfl rfl rfl⟩

/-- Claim C7 (partial-frame retention): a chunk with no terminator emits
nothing and is retained verbatim after the pending partial; a later chunk
completing the frame (terminator included) emits exactly the decode of the
concatenation. -/
theorem partial_frame_retention (buffer chunk rest p : List Char) (v : Json)
    (hbuf : idxOfNl buffer = none) (hchunk : idxOfNl chunk = none)
    (hshape : (buffer ++ chunk) ++ rest = p ++ ['\n'])
    (hp : idxOfNl p = none) (hv : JSONParse p = .ok v) :
    ingest buffer chunk = ⟨[], buffer ++ chunk, none⟩
    ∧ ingest (buffer ++ chunk) rest = ⟨[v], [], none⟩ := by
  constructor
  · rw [ingest, ingestLoop]
    simp only [idxOfNl_append_none hbuf hchunk]
  · have hsp : splitNl (p ++ ['\n']) = ([p], []) := by
      rw [splitNl_frame hp]
      rfl
    have hok : linesOk ((buffer ++ chunk) ++ rest) := by
      rw [hshape]
      intro l hl
      rw [hsp] at hl
      simp only [List.mem_cons, List.not_mem_nil, or_false] at hl
      rcases hl with rfl
      rw [hv]; rfl
    rw [ingest_ok hok, hshape, hsp]
    simp [parsedLines, List.filterMap_cons, hv, Except.toOption]

/-- Witness for C7: a frame cut in the middle of a key is retained, then
completed and decoded as the concatenation. -/
theorem partial_frame_retention_witness :
    idxOfNl (chars "\x7b\"a\"") = none
    ∧ JSONParse (chars "\x7b\"a\":1\x7d") = .ok (.obj [("a", .num "1")])
    ∧ ingest [] (chars "\x7b\"a\"") = ⟨[], chars "\x7b\"a\"", none⟩
    ∧ ingest (chars "\x7b\"a\"") (chars ":1\x7d\n")
        = ⟨[.obj [("a", .num "1")]], [], none⟩ := by
  refine ⟨rfl, rfl, ?_⟩
  have h := partial_frame_retention [] (chars "\x7b\"a\"") (chars ":1\x7d\n")
    (chars "\x7b\"a\":1\x7d") (.obj [("a", .num "1")]) rfl rfl rfl rfl rfl
  exact ⟨h.1, h.2⟩

/-- Claim C10 (no payload shape validation): every terminated frame payload
that parses as JSON is emitted unchanged as one message event, whatever its
shape — the decoder checks no discriminant and no fields. -/
theorem decoder_no_validation (payload : List Char) (v : Json)
    (hnl : idxOfNl payload = none) (hv : JSONParse payload = .ok v) :
    ingest [] (payload ++ ['\n']) = ⟨[v], [], none⟩ := by
  have hsp : splitNl (payload ++ ['\n']) = ([payload], []) := by
    rw [splitNl_frame hnl]
    rfl
  have hok : linesOk ([] ++ (payload ++ ['\n'])) := by
    rw [List.nil_append]
    intro l hl
    rw [hsp] at hl
    simp only [List.mem_cons, List.not_mem_nil, or_false] at hl
    rcases hl with rfl
    rw [hv]; rfl
  rw [ingest_ok hok, List.nil_append, hsp]
  simp [parsedLines, List.filterMap_cons, hv, Except.toOption]

/-- Witness for C10: the non-object payloads `null`, `42` and `"x"` each
yield one message event carrying that value. -/
theorem decoder_no_validation_witness :
    ingest [] (chars "null" ++ ['\n']) = ⟨[.null], [], none⟩
    ∧ ingest [] (chars "42" ++ ['\n']) = ⟨[.num "42"], [], none⟩
    ∧ ingest [] (chars "\"x\"" ++ ['\n']) = ⟨[.str "x"], [], none⟩ :=
  ⟨decoder_no_validation _ _ rfl rfl,
   decoder_no_validation _ _ rfl rfl,
   decoder_no_validation _ _ rfl rfl⟩

/-- Counterexample to claim C2: the data handler has no try/catch and no
decode-error event.  A terminated malformed frame followed by a terminated
well-formed frame in the same buffer produces zero events of any kind: the
`JSON.parse` exception escapes the handler and the well-formed frame stays
undecoded in the buffer, terminator and all. -/
theorem malformed_frame_counterexample :
    ingest []
        (chars "\x7b\"type\":\"changed\"\n\x7b\"type\":\"watching\",\"file\":\"target.txt\"\x7d\n")
      = ⟨[], chars "\x7b\"type\":\"watching\",\"file\":\"target.txt\"\x7d\n",
          some "Expected comma or closing brace in JSON object"⟩ := rfl

/-- Claim C2 as amended: when the first terminated frame in the buffer
fails to decode, the `JSON.parse` exception aborts the data handler after
the buffer has been advanced past the bad frame: no decode-error event is
emitted (none exists) and later frames in the same buffer — even
well-formed ones — are not decoded in that call. -/
theorem malformed_frame_aborts_handler (bad good : List Char) (e : String) (v : Json)
    (hbad : idxOfNl bad = none) (he : JSONParse bad = .error e)
    (hv : JSONParse good = .ok v) :
    ingest [] (bad ++ '\n' :: (good ++ ['\n'])) = ⟨[], good ++ ['\n'], some e⟩ := by
  rw [ingest, List.nil_append, ingestLoop]
  simp only [idxOfNl_frame hbad, take_frame, drop_frame, he]

/-- Witness for the amended C2: the spec's own malformed example aborts the
handler and leaves the following well-formed frame undelivered. -/
theorem malformed_frame_aborts_handler_witness :
    JSONParse (chars "\x7b\"type\":\"changed\"")
        = .error "Expected comma or closing brace in JSON object"
    ∧ JSONParse (chars "\x7b\"type\":\"watching\",\"file\":\"t\"\x7d")
        = .ok (.obj [("type", .str "watching"), ("file", .str "t")])
    ∧ ingest [] (chars "\x7b\"type\":\"changed\""
          ++ '\n' :: (chars "\x7b\"type\":\"watching\",\"file\":\"t\"\x7d" ++ ['\n']))
        = ⟨[], chars "\x7b\"type\":\"watching\",\"file\":\"t\"\x7d" ++ ['\n'],
            some "Expected comma or closing brace in JSON object"⟩ :=
  ⟨rfl, rfl,
   malformed_frame_aborts_handler (chars "\x7b\"type\":\"changed\"")
     (chars "\x7b\"type\":\"watching\",\"file\":\"t\"\x7d")
     "Expected comma or closing brace in JSON object"
     (.obj [("type", .str "watching"), ("file", .str "t")]) rfl rfl rfl⟩

/-- Claim C3, against the code: the two chunks the test service actually
writes concatenate to `...,"timestamp":"1358175758495\x7d"` — misplaced
quotes make the payload invalid JSON, so `JSON.parse` throws and no message
event at all is emitted (first conjunct).  With the chunk the spec states
(`...,"timestamp":1358175758495\x7d`), the scenario does yield exactly the
one expected message (second conjunct): the service's string literal, not
the scenario, is at fault. -/
theorem test_service_chunked_scenario :
    runChunks [] [chars "\x7b\"type\":\"changed\",\"file\":\"targ",
                  chars "et.txt\",\"timestamp\":\"1358175758495\x7d\"\n"]
      = ⟨[], [], some "Expected comma or closing brace in JSON object"⟩
    ∧ runChunks [] [chars "\x7b\"type\":\"changed\",\"file\":\"targ",
                    chars "et.txt\",\"timestamp\":1358175758495\x7d\n"]
      = ⟨[.obj [("type", .str "changed"), ("file", .str "target.txt"),
                ("timestamp", .num "1358175758495")]], [], none⟩ :=
  ⟨rfl, rfl⟩

/-- Counterexample to claim C4: on a message whose discriminant is neither
`watching` nor `changed`, the registered handler throws — the condition is
fatal, not reportable-and-continue. -/
theorem unknown_type_counterexample :
    handleMessage (.obj [("type", .str "bogus")])
      = .error "Unrecognized message type: bogus" := rfl

/-- Claim C4 as amended: for every decoded message whose `type` is neither
the string `watching` nor the string `changed`, the client handler throws
`Error("Unrecognized message type: ...")`, terminating message processing. -/
theorem unknown_type_throws (message : Json)
    (hw : isType (jget message "type") "watching" = false)
    (hc : isType (jget message "type") "changed" = false) :
    handleMessage message =
      .error ("Unrecognized message type: " ++ jsToStr (jget message "type")) := by
  rw [handleMessage]
  simp only [hw, hc, Bool.false_eq_true, if_false]

/-- Witness for the amended C4: a structurally fine message with a novel
discriminant makes the handler throw. -/
theorem unknown_type_throws_witness :
    isType (jget (Json.obj [("type", Json.str "added")]) "type") "watching" = false
    ∧ isType (jget (Json.obj [("type", Json.str "added")]) "type") "changed" = false
    ∧ handleMessage (.obj [("type", .str "added")])
        = .error ("Unrecognized message type: "
            ++ jsToStr (jget (Json.obj [("type", Json.str "added")]) "type")) :=
  ⟨rfl, rfl, unknown_type_throws _ rfl rfl⟩

/-- Counterexample to claim C8: a frame whose payload is valid JSON but
lacks the `timestamp` a `changed` message requires is not rejected: the
decoder emits it as a message event, no `DecodeError` arising. -/
theorem missing_field_counterexample :
    ingest [] (chars "\x7b\"type\":\"changed\",\"file\":\"x\"\x7d\n")
      = ⟨[.obj [("type", .str "changed"), ("file", .str "x")]], [], none⟩ := rfl

/-- Claim C8 as amended: the decoder performs no field validation — every
valid-JSON payload is emitted as a message even when discriminant-specific
fields are absent (here: `type` is `changed` but there is no `timestamp`);
missing fields surface only downstream, never as a decode failure. -/
theorem missing_field_passthrough (payload : List Char) (v : Json)
    (hnl : idxOfNl payload = none) (hv : JSONParse payload = .ok v)
    (htype : isType (jget v "type") "changed" = true)
    (hmiss : jget v "timestamp" = none) :
    ingest [] (payload ++ ['\n']) = ⟨[v], [], none⟩ := by
  have hsp : splitNl (payload ++ ['\n']) = ([payload], []) := by
    rw [splitNl_frame hnl]
    rfl
  have hok : linesOk ([] ++ (payload ++ ['\n'])) := by
    rw [List.nil_append]
    intro l hl
    rw [hsp] at hl
    simp only [List.mem_cons, List.not_mem_nil, or_false] at hl
    rcases hl with rfl
    rw [hv]; rfl
  rw [ingest_ok hok, List.nil_append, hsp]
  simp [parsedLines, List.filterMap_cons, hv, Except.toOption]

/-- Witness for the amended C8: the timestamp-less `changed` payload is
delivered as a message. -/
theorem missing_field_passthrough_witness :
    JSONParse (chars "\x7b\"type\":\"changed\",\"file\":\"y\"\x7d")
        = .ok (.obj [("type", .str "changed"), ("file", .str "y")])
    ∧ jget (Json.obj [("type", Json.str "changed"), ("file", Json.str "y")]) "timestamp" = none
    ∧ ingest [] (chars "\x7b\"type\":\"changed\",\"file\":\"y\"\x7d" ++ ['\n'])
        = ⟨[.obj [("type", .str "changed"), ("file", .str "y")]], [], none⟩ :=
  ⟨rfl, rfl,
   missing_field_passthrough (chars "\x7b\"type\":\"changed\",\"file\":\"y\"\x7d")
     (.obj [("type", .str "changed"), ("file", .str "y")]) rfl rfl rfl rfl⟩

/-- Claim C9 (resource release on disconnect): in every reachable session
state whose connection has closed, the session's resources are released —
the watcher service's filesystem watcher is closed, and the test service's
delayed-delivery timer is no longer pending (cleared by the end handler on
a peer close; already fired before any local close). -/
theorem session_resources_released (es : List WatchEvent) (fs : List TestEvent)
    (hw : (watchRun es).connected = false) (ht : (testRun fs).connected = false) :
    (watchRun es).watcherOpen = false ∧ (testRun fs).timerPending = false :=
  ⟨watchFold_inv es watchSessionStart (fun h => Bool.noConfusion h) hw,
   testFold_inv fs testSessionStart (fun h => Bool.noConfusion h) ht⟩

/-- Witness for C9: a peer-closed watcher session and a test session closed
locally by its own timer callback both end with resources released. -/
theorem session_resources_released_witness :
    (watchRun [.fileChanged, .connClose]).connected = false
    ∧ (testRun [.timerFires]).connected = false
    ∧ (watchRun [.fileChanged, .connClose]).watcherOpen = false
    ∧ (testRun [.timerFires]).timerPending = false := by
  refine ⟨rfl, rfl, ?_⟩
  have h := session_resources_released [.fileChanged, .connClose] [.timerFires] rfl rfl
  exact ⟨h.1, h.2⟩

end LDJ
